import Mathlib

/-
Shallow embedding of src/EA_Summarizer.py.

The script scrapes a listing of executive orders, fetches each order
detail page, summarizes the fetched text with an external model,
classifies an impact label, and renders a filtered table.

External effects are modelled by an oracle environment `Env`:
HTTP GET responses (for listing pages and detail pages), the
BeautifulSoup container lookups of a detail page, the summarization
pipeline, and ISO date parsing.  The global dictionary
`order_text_cache` is threaded explicitly as an association list.
Every function additionally returns the list of external events
(HTTP GET requests and summarization calls) it performs, in order.
-/

namespace EASummarizer

/-- An anchor tag inside the listing item title: its stripped text and href. -/
structure ATag where
  text : String
  href : String
deriving DecidableEq, Repr

/-- The h2 title element of a listing item; it may or may not contain an anchor. -/
structure H2Tag where
  aTag : Option ATag
deriving DecidableEq, Repr

/-- The time element of a listing item; the datetime attribute may be absent. -/
structure TimeTag where
  datetime : Option String
deriving DecidableEq, Repr

/-- One listing item (an li element selected by the data-wp-key selector):
the h2 element and the time element may each be missing. -/
structure Item where
  h2 : Option H2Tag
  timeTag : Option TimeTag
deriving DecidableEq, Repr

/-- A parsed detail page: `find tag attrs` is the stripped text of the first
container matching the tag and attributes, or none when no container matches;
`fullText` is the stripped text of the whole page. -/
structure DetailPage where
  find : String → List (String × String) → Option String
  fullText : String

/-- Outcome of requests.get on a detail page URL: a raised exception, or a
response carrying a status code and the parsed page. -/
inductive DetailFetch where
  | exn : DetailFetch
  | resp : Nat → DetailPage → DetailFetch

/-- External events performed by the script, in program order. -/
inductive Event where
  | httpGet : String → Event
  | summarizeCall : String → Event
deriving DecidableEq, Repr

/-- The oracle environment: listing responses by URL (status code and the
items selected from the page), detail responses by URL, the summarization
pipeline (exception or the summary_text of its first output), and
datetime.fromisoformat composed with .date() (none when parsing raises).
Dates are modelled as naturals. -/
structure Env where
  listing : String → Nat × List Item
  detail : String → DetailFetch
  summarize : String → Except Unit String
  fromisoformat : String → Option Nat

/-- The cache maps a detail URL to the order text stored for it. -/
abbrev Cache := List (String × String)

/-- Lookup in the cache, modelling Python dict membership and indexing. -/
def cacheLookup : Cache → String → Option String
  | [], _ => none
  | (k, v) :: rest, url => if k = url then some v else cacheLookup rest url

/-- Global cache dictionary for executive order texts: empty at process start. -/
def order_text_cache : Cache := []

/-- A record appended to the results list, with the six dictionary keys
Date, Title, Link, Summary, Impact, Full Text. -/
structure Order where
  date : Nat
  title : String
  link : String
  summary : String
  impact : String
  fullText : String
deriving DecidableEq, Repr

/-- Result of fetch_order_text: the returned string, the cache afterwards,
and the external events performed. -/
structure FetchTextResult where
  text : String
  cache : Cache
  log : List Event
deriving DecidableEq, Repr

/-- Result of processing one listing item: the appended record if any,
the cache afterwards, and the external events performed. -/
structure ItemResult where
  order : Option Order
  cache : Cache
  log : List Event
deriving DecidableEq, Repr

/-- Result of the scraping run: the results list, the cache afterwards,
and the external events performed. -/
structure RunResult where
  orders : List Order
  cache : Cache
  log : List Event
deriving DecidableEq, Repr

/-- The fixed selector list tried on a detail page, in source order. -/
def selectors : List (String × List (String × String)) :=
  [("article", []),
   ("div", [("class", "page-content")]),
   ("main", []),
   ("div", [("class", "content-wrapper")]),
   ("div", [("class", "page__content")]),
   ("div", [("class", "entry-content")])]

/-- The selector loop of fetch_order_text: `acc` is the current order_text.
When a container is found its text replaces the accumulator, and the loop
breaks as soon as that text is longer than 200 characters. -/
def selectText (page : DetailPage) : List (String × List (String × String)) → String → String
  | [], acc => acc
  | (tag, attrs) :: rest, acc =>
    match page.find tag attrs with
    | none => selectText page rest acc
    | some t => if t.length > 200 then t else selectText page rest t

/-- The text extracted from a detail page: the selector loop result, with the
whole-page text as fallback when that result is empty or shorter than 200. -/
def extractOrderText (page : DetailPage) : String :=
  let order_text := selectText page selectors ""
  if order_text = "" ∨ order_text.length < 200 then page.fullText else order_text

/-- fetch_order_text: return the cached text on a cache hit; otherwise issue
the GET, return the empty string on a non-200 status or a raised exception,
and on success extract, cache and return the text. -/
def fetch_order_text (env : Env) (cache : Cache) (url : String) : FetchTextResult :=
  match cacheLookup cache url with
  | some t => ⟨t, cache, []⟩
  | none =>
    match env.detail url with
    | DetailFetch.exn => ⟨"", cache, [Event.httpGet url]⟩
    | DetailFetch.resp status page =>
      if status ≠ 200 then ⟨"", cache, [Event.httpGet url]⟩
      else
        let t := extractOrderText page
        ⟨t, (url, t) :: cache, [Event.httpGet url]⟩

/-- The date of a listing item: requires a time element carrying a datetime
attribute that fromisoformat parses; none in every failure case. -/
def itemDate (env : Env) (item : Item) : Option Nat :=
  match item.timeTag with
  | none => none
  | some t =>
    match t.datetime with
    | none => none
    | some s => env.fromisoformat s

/-- The summarization step on a fetched order text: skipped for the empty
text; otherwise one summarization call, yielding the summary_text on
success and the fixed error message when the call raises. -/
def summarizeStep (env : Env) (text : String) : String × List Event :=
  if text ≠ "" then
    match env.summarize text with
    | Except.ok s => (s, [Event.summarizeCall text])
    | Except.error _ => ("Summary generation error.", [Event.summarizeCall text])
  else ("", [])

/-- Boolean test that the first character list is a prefix of the second. -/
def listPrefix : List Char → List Char → Bool
  | [], _ => true
  | _ :: _, [] => false
  | a :: pat, b :: rest => a = b && listPrefix pat rest

/-- Boolean test that the first character list occurs contiguously inside
the second. -/
def listInfix (pat : List Char) : List Char → Bool
  | [] => pat.isEmpty
  | c :: rest => listPrefix pat (c :: rest) || listInfix pat rest

/-- Python substring membership, as used by the impact classification:
the pattern occurs contiguously in the text. -/
def strContains (text pat : String) : Bool :=
  listInfix pat.toList text.toList

/-- Lowercasing applied before the substring test: per-character lowering
of basic latin letters, as the library lower call does on them. -/
def strLower (s : String) : String := String.mk (s.data.map Char.toLower)

/-- The impact classification of an order text. -/
def impactFor (text : String) : String :=
  if strContains (strLower text) "emergency" then "High" else "Moderate"

/-- Processing of one listing item: skip it when the h2, the anchor, or a
parseable datetime is missing; otherwise fetch the order text, summarize,
classify the impact, and record the order. -/
def processItem (env : Env) (cache : Cache) (item : Item) : ItemResult :=
  match item.h2 with
  | none => ⟨none, cache, []⟩
  | some h2 =>
    match h2.aTag with
    | none => ⟨none, cache, []⟩
    | some a =>
      match itemDate env item with
      | none => ⟨none, cache, []⟩
      | some order_date =>
        let r := fetch_order_text env cache a.href
        let s := summarizeStep env r.text
        ⟨some ⟨order_date, a.text, a.href, s.1, impactFor r.text, r.text⟩,
         r.cache, r.log ++ s.2⟩

/-- Processing of the items of one listing page, threading the cache. -/
def processItems (env : Env) (cache : Cache) : List Item → RunResult
  | [] => ⟨[], cache, []⟩
  | item :: rest =>
    let r := processItem env cache item
    let r2 := processItems env r.cache rest
    ⟨r.order.toList ++ r2.orders, r2.cache, r.log ++ r2.log⟩

/-- Base URL of the scraped site. -/
def base_url : String := "https://www.whitehouse.gov"

/-- URL of the listing page with the given page number. -/
def page_url (page : Nat) : String :=
  if page = 1 then base_url ++ "/presidential-actions/"
  else base_url ++ "/presidential-actions/page/" ++ toString page ++ "/"

/-- The pagination while-loop of fetch_executive_orders, with a fuel bound
on the number of iterations.  The loop breaks on a non-200 listing status,
on a page with no selected items, and on a page yielding no orders. -/
def fetchPages (env : Env) : Nat → Nat → Cache → RunResult
  | 0, _, cache => ⟨[], cache, []⟩
  | fuel + 1, page, cache =>
    let url := page_url page
    let resp := env.listing url
    if resp.1 ≠ 200 then ⟨[], cache, [Event.httpGet url]⟩
    else if resp.2 = [] then ⟨[], cache, [Event.httpGet url]⟩
    else
      let r := processItems env cache resp.2
      if r.orders = [] then ⟨[], r.cache, Event.httpGet url :: r.log⟩
      else
        let rest := fetchPages env fuel (page + 1) r.cache
        ⟨r.orders ++ rest.orders, rest.cache, Event.httpGet url :: (r.log ++ rest.log)⟩

/-- fetch_executive_orders: run the pagination loop from page 1 with the
(empty) global cache. -/
def fetch_executive_orders (env : Env) (fuel : Nat) : RunResult :=
  fetchPages env fuel 1 order_text_cache

/-- A displayed table row: the five selected dataframe columns. -/
structure Row where
  date : Nat
  title : String
  link : String
  summary : String
  impact : String
deriving DecidableEq, Repr

/-- The column labels selected for display in main. -/
def displayedColumns : List String := ["Date", "Title", "Link", "Summary", "Impact"]

/-- Projection of an order record to its displayed row. -/
def displayRow (o : Order) : Row := ⟨o.date, o.title, o.link, o.summary, o.impact⟩

/-- The date filter of main: keep the rows whose Date is at least the
selected filter date. -/
def filterByDate (orders : List Order) (date_filter : Nat) : List Order :=
  orders.filter (fun o => date_filter ≤ o.date)

/-- The rendered dashboard table: the filtered rows projected to the
displayed columns. -/
def renderTable (orders : List Order) (date_filter : Nat) : List Row :=
  (filterByDate orders date_filter).map displayRow

/-- Number of summarization calls in an event log. -/
def summarizeCount : List Event → Nat
  | [] => 0
  | Event.summarizeCall _ :: rest => summarizeCount rest + 1
  | Event.httpGet _ :: rest => summarizeCount rest

/-- Number of recorded orders with a nonempty fetched full text. -/
def nonEmptyCount : List Order → Nat
  | [] => 0
  | o :: rest => (if o.fullText ≠ "" then 1 else 0) + nonEmptyCount rest

/-- A well-formed listing item used in concrete runs. -/
def itemA : Item := ⟨some ⟨some ⟨"Order One", "u1"⟩⟩, some ⟨some "d1"⟩⟩

/-- A detail page with no matching container and a short whole-page text. -/
def pageA : DetailPage := ⟨fun _ _ => none, "national emergency x"⟩

/-- A concrete environment: one listing page with one item, a detail page
for its link, a summarizer prefixing S, and one parseable datetime. -/
def envA : Env :=
  { listing := fun url => if url = page_url 1 then (200, [itemA]) else (404, []),
    detail := fun url => if url = "u1" then DetailFetch.resp 200 pageA else DetailFetch.exn,
    summarize := fun t => Except.ok ("S" ++ t),
    fromisoformat := fun s => if s = "d1" then some 1 else none }

/-- The order record produced by a run over envA. -/
def orderA : Order :=
  ⟨1, "Order One", "u1", "Snational emergency x", "High", "national emergency x"⟩

/-- A listing item whose detail page carries no text at all. -/
def itemB : Item := ⟨some ⟨some ⟨"T", "u1"⟩⟩, some ⟨some "d1"⟩⟩

/-- An environment whose detail page text is empty while the summarizer
would return the literal X on any input, the empty string included. -/
def envC5 : Env :=
  { listing := fun url => if url = page_url 1 then (200, [itemB]) else (404, []),
    detail := fun _ => DetailFetch.resp 200 ⟨fun _ _ => none, ""⟩,
    summarize := fun _ => Except.ok "X",
    fromisoformat := fun _ => some 1 }

/-- The order record produced by a run over envC5. -/
def orderB : Order := ⟨1, "T", "u1", "", "Moderate", ""⟩

/-- Two listing items with distinct detail links. -/
def itemC : Item := ⟨some ⟨some ⟨"T1", "u1"⟩⟩, some ⟨some "d1"⟩⟩

/-- Second listing item for the two-order run. -/
def itemD : Item := ⟨some ⟨some ⟨"T2", "u2"⟩⟩, some ⟨some "d1"⟩⟩

/-- An environment whose single listing page holds two items, each with a
nonempty detail text. -/
def envC6 : Env :=
  { listing := fun url => if url = page_url 1 then (200, [itemC, itemD]) else (404, []),
    detail := fun url => DetailFetch.resp 200 ⟨fun _ _ => none, "tx " ++ url⟩,
    summarize := fun t => Except.ok t,
    fromisoformat := fun _ => some 1 }

/-- A 201-character text, longer than the 200-character threshold. -/
def longT : String := String.mk (List.replicate 201 'a')

/-- A detail page where the first selector finds a short container and the
second selector finds a long one. -/
def pageB : DetailPage :=
  ⟨fun tag attrs =>
     if tag = "article" ∧ attrs = [] then some "short"
     else if tag = "div" ∧ attrs = [("class", "page-content")] then some longT
     else none,
   "F"⟩

/-- A listing item with no h2 element. -/
def badItem : Item := ⟨none, some ⟨some "d1"⟩⟩

/-- The environment envA with a summarizer that always raises. -/
def envErr : Env :=
  { listing := fun url => if url = page_url 1 then (200, [itemA]) else (404, []),
    detail := fun url => if url = "u1" then DetailFetch.resp 200 pageA else DetailFetch.exn,
    summarize := fun _ => Except.error (),
    fromisoformat := fun s => if s = "d1" then some 1 else none }

theorem listPrefix_iff (pat : List Char) : ∀ l : List Char,
    listPrefix pat l = true ↔ pat <+: l := by
  induction pat with
  | nil => intro l; simp [listPrefix]
  | cons a as ih =>
    intro l
    cases l with
    | nil => simp [listPrefix]
    | cons b bs => simp [listPrefix, List.cons_prefix_cons, ih]

theorem listInfix_iff (pat : List Char) : ∀ l : List Char,
    listInfix pat l = true ↔ pat <:+: l := by
  intro l
  induction l with
  | nil => simp [listInfix, List.isEmpty_iff]
  | cons c rest ih => simp [listInfix, listPrefix_iff, ih, List.infix_cons_iff]

theorem strContains_iff (text pat : String) :
    strContains text pat = true ↔ pat.toList <:+: text.toList := by
  simp [strContains, listInfix_iff]

theorem processItem_order_spec (env : Env) (cache : Cache) (item : Item) (o : Order)
    (h : (processItem env cache item).order = some o) :
    o.impact = impactFor o.fullText ∧ o.summary = (summarizeStep env o.fullText).1 := by
  obtain ⟨h2opt, topt⟩ := item
  cases h2opt with
  | none => simp [processItem] at h
  | some h2 =>
    obtain ⟨aopt⟩ := h2
    cases aopt with
    | none => simp [processItem] at h
    | some a =>
      cases topt with
      | none => simp [processItem, itemDate] at h
      | some t =>
        obtain ⟨dopt⟩ := t
        cases dopt with
        | none => simp [processItem, itemDate] at h
        | some s =>
          cases hf : env.fromisoformat s with
          | none => simp [processItem, itemDate, hf] at h
          | some d =>
            simp only [processItem, itemDate, hf, Option.some.injEq] at h
            subst h
            exact ⟨rfl, rfl⟩

theorem mem_processItems_spec (env : Env) (items : List Item) :
    ∀ (cache : Cache) (o : Order), o ∈ (processItems env cache items).orders →
      o.impact = impactFor o.fullText ∧ o.summary = (summarizeStep env o.fullText).1 := by
  induction items with
  | nil => intro cache o h; simp [processItems] at h
  | cons item rest ih =>
    intro cache o h
    simp only [processItems, List.mem_append, Option.mem_toList, Option.mem_def] at h
    rcases h with h | h
    · exact processItem_order_spec env cache item o h
    · exact ih _ o h

theorem mem_fetchPages_spec (env : Env) :
    ∀ (fuel page : Nat) (cache : Cache) (o : Order),
      o ∈ (fetchPages env fuel page cache).orders →
      o.impact = impactFor o.fullText ∧ o.summary = (summarizeStep env o.fullText).1 := by
  intro fuel
  induction fuel with
  | zero => intro page cache o h; simp [fetchPages] at h
  | succ n ih =>
    intro page cache o h
    simp only [fetchPages] at h
    split at h
    · simp at h
    · split at h
      · simp at h
      · split at h
        · simp at h
        · simp only [List.mem_append] at h
          rcases h with h | h
          · exact mem_processItems_spec env _ _ o h
          · exact ih _ _ o h

theorem summarizeCount_append (l1 l2 : List Event) :
    summarizeCount (l1 ++ l2) = summarizeCount l1 + summarizeCount l2 := by
  induction l1 with
  | nil => simp [summarizeCount]
  | cons e rest ih =>
    cases e with
    | httpGet u => simp [summarizeCount, ih]
    | summarizeCall t =>
      simp [summarizeCount, ih]
      omega

theorem nonEmptyCount_append (l1 l2 : List Order) :
    nonEmptyCount (l1 ++ l2) = nonEmptyCount l1 + nonEmptyCount l2 := by
  induction l1 with
  | nil => simp [nonEmptyCount]
  | cons o rest ih => simp [nonEmptyCount, ih]; omega

theorem summarizeCount_fetch (env : Env) (cache : Cache) (url : String) :
    summarizeCount (fetch_order_text env cache url).log = 0 := by
  unfold fetch_order_text
  cases cacheLookup cache url with
  | some t => simp [summarizeCount]
  | none =>
    cases env.detail url with
    | exn => simp [summarizeCount]
    | resp status page =>
      by_cases hs : status = 200
      · simp [hs, summarizeCount]
      · simp [hs, summarizeCount]

theorem processItem_count (env : Env) (cache : Cache) (item : Item) :
    summarizeCount (processItem env cache item).log =
      nonEmptyCount (processItem env cache item).order.toList := by
  obtain ⟨h2opt, topt⟩ := item
  cases h2opt with
  | none => simp [processItem, summarizeCount, nonEmptyCount]
  | some h2 =>
    obtain ⟨aopt⟩ := h2
    cases aopt with
    | none => simp [processItem, summarizeCount, nonEmptyCount]
    | some a =>
      cases topt with
      | none => simp [processItem, itemDate, summarizeCount, nonEmptyCount]
      | some t =>
        obtain ⟨dopt⟩ := t
        cases dopt with
        | none => simp [processItem, itemDate, summarizeCount, nonEmptyCount]
        | some s =>
          cases hf : env.fromisoformat s with
          | none => simp [processItem, itemDate, hf, summarizeCount, nonEmptyCount]
          | some d =>
            simp only [processItem, itemDate, hf, summarizeCount_append,
              summarizeCount_fetch, Option.toList_some]
            unfold summarizeStep
            by_cases hne : (fetch_order_text env cache a.href).text ≠ ""
            · rw [if_pos hne]
              cases env.summarize (fetch_order_text env cache a.href).text <;>
                simp [summarizeCount, nonEmptyCount, hne]
            · rw [if_neg hne]
              simp [summarizeCount, nonEmptyCount, hne]

theorem processItems_count (env : Env) (items : List Item) :
    ∀ cache : Cache,
      summarizeCount (processItems env cache items).log =
        nonEmptyCount (processItems env cache items).orders := by
  induction items with
  | nil => intro cache; simp [processItems, summarizeCount, nonEmptyCount]
  | cons item rest ih =>
    intro cache
    simp only [processItems, summarizeCount_append, nonEmptyCount_append,
      processItem_count, ih]

theorem fetchPages_count (env : Env) :
    ∀ (fuel page : Nat) (cache : Cache),
      summarizeCount (fetchPages env fuel page cache).log =
        nonEmptyCount (fetchPages env fuel page cache).orders := by
  intro fuel
  induction fuel with
  | zero => intro page cache; simp [fetchPages, summarizeCount, nonEmptyCount]
  | succ n ih =>
    intro page cache
    simp only [fetchPages]
    split
    · simp [summarizeCount, nonEmptyCount]
    · split
      · simp [summarizeCount, nonEmptyCount]
      · split
        · next hords =>
            have h1 := processItems_count env ((env.listing (page_url page)).2) cache
            simp [summarizeCount, nonEmptyCount, h1, hords]
        · simp only [summarizeCount, summarizeCount_append, nonEmptyCount_append,
            processItems_count, ih]

theorem cacheLookup_fetch_mono (env : Env) (cache : Cache) (url k v : String)
    (h : cacheLookup cache k = some v) :
    cacheLookup (fetch_order_text env cache url).cache k = some v := by
  unfold fetch_order_text
  cases hc : cacheLookup cache url with
  | some t => simpa using h
  | none =>
    cases env.detail url with
    | exn => simpa using h
    | resp status page =>
      by_cases hs : status = 200
      · simp only [hs, ne_eq, not_true_eq_false, if_false]
        simp only [cacheLookup]
        by_cases huk : url = k
        · exfalso
          rw [huk] at hc
          rw [hc] at h
          cases h
        · rw [if_neg huk]
          exact h
      · simpa [hs] using h

theorem cacheLookup_processItem_mono (env : Env) (cache : Cache) (item : Item)
    (k v : String) (h : cacheLookup cache k = some v) :
    cacheLookup (processItem env cache item).cache k = some v := by
  obtain ⟨h2opt, topt⟩ := item
  cases h2opt with
  | none => simpa [processItem] using h
  | some h2 =>
    obtain ⟨aopt⟩ := h2
    cases aopt with
    | none => simpa [processItem] using h
    | some a =>
      cases topt with
      | none => simpa [processItem, itemDate] using h
      | some t =>
        obtain ⟨dopt⟩ := t
        cases dopt with
        | none => simpa [processItem, itemDate] using h
        | some s =>
          cases hf : env.fromisoformat s with
          | none => simpa [processItem, itemDate, hf] using h
          | some d =>
            simp only [processItem, itemDate, hf]
            exact cacheLookup_fetch_mono env cache a.href k v h

theorem cacheLookup_processItems_mono (env : Env) (items : List Item) :
    ∀ (cache : Cache) (k v : String), cacheLookup cache k = some v →
      cacheLookup (processItems env cache items).cache k = some v := by
  induction items with
  | nil => intro cache k v h; simpa [processItems] using h
  | cons item rest ih =>
    intro cache k v h
    simp only [processItems]
    exact ih _ k v (cacheLookup_processItem_mono env cache item k v h)

theorem cacheLookup_fetchPages_mono (env : Env) :
    ∀ (fuel page : Nat) (cache : Cache) (k v : String), cacheLookup cache k = some v →
      cacheLookup (fetchPages env fuel page cache).cache k = some v := by
  intro fuel
  induction fuel with
  | zero => intro page cache k v h; simpa [fetchPages] using h
  | succ n ih =>
    intro page cache k v h
    simp only [fetchPages]
    split
    · simpa using h
    · split
      · simpa using h
      · split
        · exact cacheLookup_processItems_mono env _ cache k v h
        · exact ih _ _ k v (cacheLookup_processItems_mono env _ cache k v h)

theorem processItem_skip (env : Env) (cache : Cache) (item : Item)
    (h : item.h2 = none ∨ item.h2.bind H2Tag.aTag = none ∨ itemDate env item = none) :
    processItem env cache item = ⟨none, cache, []⟩ := by
  obtain ⟨h2opt, topt⟩ := item
  cases h2opt with
  | none => simp [processItem]
  | some h2 =>
    obtain ⟨aopt⟩ := h2
    cases aopt with
    | none => simp [processItem]
    | some a =>
      rcases h with h | h | h
      · simp at h
      · simp [Option.bind] at h
      · simp [processItem, h]

theorem processItems_skip_cons (env : Env) (cache : Cache) (item : Item) (rest : List Item)
    (h : processItem env cache item = ⟨none, cache, []⟩) :
    processItems env cache (item :: rest) = processItems env cache rest := by
  simp [processItems, h]

theorem processItem_records (env : Env) (cache : Cache) (item : Item)
    (h2 : H2Tag) (a : ATag) (d : Nat)
    (hh2 : item.h2 = some h2) (ha : h2.aTag = some a) (hd : itemDate env item = some d) :
    (processItem env cache item).order =
      some ⟨d, a.text, a.href,
            (summarizeStep env (fetch_order_text env cache a.href).text).1,
            impactFor (fetch_order_text env cache a.href).text,
            (fetch_order_text env cache a.href).text⟩ := by
  obtain ⟨h2opt, topt⟩ := item
  simp only [] at hh2
  subst hh2
  obtain ⟨aopt⟩ := h2
  simp only [] at ha
  subst ha
  simp [processItem, hd]

theorem selectText_first_long (page : DetailPage) :
    ∀ (pre : List (String × List (String × String))) (tag : String)
      (attrs : List (String × String)) (post : List (String × List (String × String)))
      (t acc : String),
      page.find tag attrs = some t → 200 < t.length →
      pre.all (fun s => match page.find s.1 s.2 with
               | none => true
               | some u => decide (u.length ≤ 200)) = true →
      selectText page (pre ++ (tag, attrs) :: post) acc = t := by
  intro pre
  induction pre with
  | nil =>
    intro tag attrs post t acc hfind hlong _
    simp [selectText, hfind, hlong]
  | cons s pre2 ih =>
    intro tag attrs post t acc hfind hlong hall
    obtain ⟨tg, ats⟩ := s
    simp only [List.all_cons, Bool.and_eq_true] at hall
    obtain ⟨hs, hall2⟩ := hall
    cases hfs : page.find tg ats with
    | none =>
      simp only [List.cons_append, selectText, hfs]
      exact ih tag attrs post t acc hfind hlong hall2
    | some u =>
      rw [hfs] at hs
      simp only [decide_eq_true_eq] at hs
      simp only [List.cons_append, selectText, hfs]
      rw [if_neg (by omega)]
      exact ih tag attrs post t u hfind hlong hall2

theorem renderTable_map_fullText (g : Order → String) :
    ∀ (orders : List Order) (d : Nat),
      renderTable (orders.map (fun x => { x with fullText := g x })) d =
        renderTable orders d := by
  intro orders d
  induction orders with
  | nil => rfl
  | cons x xs ih =>
    simp only [List.map_cons, renderTable, filterByDate, List.filter_cons] at ih ⊢
    by_cases hd : d ≤ x.date
    · simp [hd, displayRow, ih]
    · simp [hd, displayRow, ih]

/-- C1: every order recorded by a run carries an impact label that is one of
the two values High and Moderate; the label is High exactly when the
lowercased fetched full text of the order contains the substring emergency,
and it is Moderate otherwise, in particular whenever the fetched text is
empty. -/
theorem c1_impact_two_valued (env : Env) (fuel : Nat) (o : Order)
    (ho : o ∈ (fetch_executive_orders env fuel).orders) :
    (o.impact = "High" ∨ o.impact = "Moderate") ∧
    (o.impact = "High" ↔ "emergency".toList <:+: (strLower o.fullText).toList) ∧
    (o.fullText = "" → o.impact = "Moderate") := by
  have h := (mem_fetchPages_spec env fuel 1 order_text_cache o ho).1
  refine ⟨?_, ?_, ?_⟩
  · rw [h]
    unfold impactFor
    split
    · exact Or.inl rfl
    · exact Or.inr rfl
  · rw [h]
    unfold impactFor
    by_cases hb : strContains (strLower o.fullText) "emergency" = true
    · rw [if_pos hb]
      rw [strContains_iff] at hb
      exact ⟨fun _ => hb, fun _ => rfl⟩
    · rw [if_neg hb]
      rw [strContains_iff] at hb
      constructor
      · intro hM
        exact absurd hM (by decide)
      · intro hi
        exact absurd hi hb
  · intro he
    rw [h, he]
    decide

/-- C1 witness: the theorem applied to the order produced by a concrete
run. -/
theorem c1_witness :
    (orderA.impact = "High" ∨ orderA.impact = "Moderate") ∧
    (orderA.impact = "High" ↔ "emergency".toList <:+: (strLower orderA.fullText).toList) ∧
    (orderA.fullText = "" → orderA.impact = "Moderate") :=
  c1_impact_two_valued envA 2 orderA (by decide)

/-- C2: the date filter of the dashboard keeps exactly the orders whose
date is at least the selected filter date, as a sublist of the scraped
list (hence unmodified, in their original relative order, with nothing
added), and the rendered table is the projection of exactly that list. -/
theorem c2_date_filter_pure (orders : List Order) (d : Nat) :
    (∀ o : Order, o ∈ filterByDate orders d ↔ o ∈ orders ∧ d ≤ o.date) ∧
    List.Sublist (filterByDate orders d) orders ∧
    renderTable orders d = List.map displayRow (filterByDate orders d) := by
  refine ⟨fun o => ?_, List.filter_sublist orders, rfl⟩
  simp [filterByDate]

/-- C3: failure handling is log-and-skip: a listing item missing its h2,
its anchor, or a parseable datetime is skipped with no effect and the
remaining items are still processed; a detail fetch that raises or returns
a non-200 status makes fetch_order_text return the empty string; and when
the summarization call raises on a nonempty text, the order is still
recorded with the fixed error message as its summary. -/
theorem c3_log_and_skip (env : Env) (cache : Cache) :
    (∀ (item : Item) (rest : List Item),
       item.h2 = none ∨ item.h2.bind H2Tag.aTag = none ∨ itemDate env item = none →
       processItem env cache item = ⟨none, cache, []⟩ ∧
       processItems env cache (item :: rest) = processItems env cache rest) ∧
    (∀ url : String, cacheLookup cache url = none →
       (env.detail url = DetailFetch.exn →
          (fetch_order_text env cache url).text = "") ∧
       (∀ (status : Nat) (page : DetailPage),
          env.detail url = DetailFetch.resp status page → status ≠ 200 →
          (fetch_order_text env cache url).text = "")) ∧
    (∀ (item : Item) (h2 : H2Tag) (a : ATag) (d : Nat) (e : Unit),
       item.h2 = some h2 → h2.aTag = some a → itemDate env item = some d →
       (fetch_order_text env cache a.href).text ≠ "" →
       env.summarize (fetch_order_text env cache a.href).text = Except.error e →
       (processItem env cache item).order =
         some ⟨d, a.text, a.href, "Summary generation error.",
               impactFor (fetch_order_text env cache a.href).text,
               (fetch_order_text env cache a.href).text⟩) := by
  refine ⟨?_, ?_, ?_⟩
  · intro item rest h
    have hskip := processItem_skip env cache item h
    exact ⟨hskip, processItems_skip_cons env cache item rest hskip⟩
  · intro url hmiss
    constructor
    · intro hexn
      unfold fetch_order_text
      rw [hmiss, hexn]
    · intro status page hresp hstatus
      unfold fetch_order_text
      rw [hmiss, hresp]
      simp [hstatus]
  · intro item h2 a d e hh2 ha hd hne hs
    rw [processItem_records env cache item h2 a d hh2 ha hd]
    unfold summarizeStep
    rw [if_pos hne, hs]

/-- C3 witness: the three failure modes exercised on concrete inputs. -/
theorem c3_witness :
    processItem envErr [] badItem = ⟨none, [], []⟩ ∧
    (fetch_order_text envErr [] "zz").text = "" ∧
    (processItem envErr [] itemA).order =
      some ⟨1, "Order One", "u1", "Summary generation error.", "High",
            "national emergency x"⟩ := by
  refine ⟨((c3_log_and_skip envErr []).1 badItem [] (Or.inl rfl)).1, ?_, ?_⟩
  · exact ((c3_log_and_skip envErr []).2.1 "zz" rfl).1 rfl
  · have h := (c3_log_and_skip envErr []).2.2 itemA ⟨some ⟨"Order One", "u1"⟩⟩
      ⟨"Order One", "u1"⟩ 1 () rfl rfl (by decide) (by decide) rfl
    exact h.trans (by decide)

/-- C4: the order-text cache starts empty, a cache hit returns the exact
cached string while issuing no request and leaving the cache unchanged, a
successful fetch stores the extracted text under its URL, and every
operation of the run only grows the cache: an entry once present survives
every later fetch, item, and page step with its value unchanged. -/
theorem c4_cache_growth :
    order_text_cache = ([] : Cache) ∧
    (∀ (env : Env) (cache : Cache) (url t : String),
       cacheLookup cache url = some t →
       fetch_order_text env cache url = ⟨t, cache, []⟩) ∧
    (∀ (env : Env) (cache : Cache) (url : String) (page : DetailPage),
       cacheLookup cache url = none → env.detail url = DetailFetch.resp 200 page →
       fetch_order_text env cache url =
         ⟨extractOrderText page, (url, extractOrderText page) :: cache,
          [Event.httpGet url]⟩ ∧
       fetch_order_text env ((url, extractOrderText page) :: cache) url =
         ⟨extractOrderText page, (url, extractOrderText page) :: cache, []⟩) ∧
    (∀ (env : Env) (cache : Cache) (url k v : String),
       cacheLookup cache k = some v →
       cacheLookup (fetch_order_text env cache url).cache k = some v) ∧
    (∀ (env : Env) (items : List Item) (cache : Cache) (k v : String),
       cacheLookup cache k = some v →
       cacheLookup (processItems env cache items).cache k = some v) ∧
    (∀ (env : Env) (fuel page : Nat) (cache : Cache) (k v : String),
       cacheLookup cache k = some v →
       cacheLookup (fetchPages env fuel page cache).cache k = some v) := by
  refine ⟨rfl, ?_, ?_, ?_, ?_, ?_⟩
  · intro env cache url t h
    unfold fetch_order_text
    rw [h]
  · intro env cache url page hmiss hresp
    constructor
    · unfold fetch_order_text
      rw [hmiss, hresp]
      simp
    · unfold fetch_order_text
      simp [cacheLookup]
  · exact fun env cache url k v h => cacheLookup_fetch_mono env cache url k v h
  · exact fun env items cache k v h => cacheLookup_processItems_mono env items cache k v h
  · exact fun env fuel page cache k v h => cacheLookup_fetchPages_mono env fuel page cache k v h

/-- C4 witness: a cache hit, a caching fetch, and growth on concrete
inputs. -/
theorem c4_witness :
    fetch_order_text envA [("u", "t")] "u" = ⟨"t", [("u", "t")], []⟩ ∧
    fetch_order_text envA [] "u1" =
      ⟨extractOrderText pageA, [("u1", extractOrderText pageA)], [Event.httpGet "u1"]⟩ ∧
    cacheLookup (fetch_order_text envA [("u", "t")] "u1").cache "u" = some "t" := by
  refine ⟨c4_cache_growth.2.1 envA [("u", "t")] "u" "t" rfl, ?_, ?_⟩
  · exact (c4_cache_growth.2.2.1 envA [] "u1" pageA rfl rfl).1
  · exact c4_cache_growth.2.2.2.1 envA [("u", "t")] "u1" "u" "t" rfl

/-- C5 counterexample: in a run whose single order has an empty fetched
text, the recorded Summary is the empty string even though the model would
output the summary X on that text, so not every recorded Summary is the
model output for the fetched full text. -/
theorem c5_counterexample :
    (fetch_executive_orders envC5 2).orders = [orderB] ∧
    envC5.summarize orderB.fullText = Except.ok "X" ∧
    orderB.summary ≠ "X" :=
  ⟨by decide, rfl, by decide⟩

/-- C5 amended: for every recorded order, the Summary field is the model
summary_text output for the fetched full text when that text is nonempty
and the call succeeds; it is the empty string when the fetched text is
empty, in which case the summarization step of that order performs no
call at all (its event list is empty); it is the fixed error message when
the call raises; and over the whole run the number of summarization calls
equals the number of recorded orders with nonempty text, so no call is
ever made for an empty one. -/
theorem c5_summary_per_order (env : Env) (fuel : Nat) (o : Order)
    (ho : o ∈ (fetch_executive_orders env fuel).orders) :
    (o.fullText = "" → o.summary = "" ∧ summarizeStep env o.fullText = ("", [])) ∧
    (o.fullText ≠ "" → ∀ s : String, env.summarize o.fullText = Except.ok s →
       o.summary = s ∧
       (summarizeStep env o.fullText).2 = [Event.summarizeCall o.fullText]) ∧
    (o.fullText ≠ "" → ∀ e : Unit, env.summarize o.fullText = Except.error e →
       o.summary = "Summary generation error.") ∧
    summarizeCount (fetch_executive_orders env fuel).log =
      nonEmptyCount (fetch_executive_orders env fuel).orders := by
  have h := (mem_fetchPages_spec env fuel 1 order_text_cache o ho).2
  refine ⟨?_, ?_, ?_, fetchPages_count env fuel 1 order_text_cache⟩
  · intro he
    constructor
    · rw [h, he]
      simp [summarizeStep]
    · rw [he]
      simp [summarizeStep]
  · intro hne s hs
    constructor
    · rw [h]
      unfold summarizeStep
      rw [if_pos hne, hs]
    · unfold summarizeStep
      rw [if_pos hne, hs]
  · intro hne e hs
    rw [h]
    unfold summarizeStep
    rw [if_pos hne, hs]

/-- C5 witness: the amended theorem applied twice, to the empty-text order
of one concrete run (no summarization call is made for it) and to the
nonempty-text order of another (whose summarization succeeded). -/
theorem c5_witness :
    (orderB.summary = "" ∧ summarizeStep envC5 orderB.fullText = ("", [])) ∧
    orderA.summary = "S" ++ orderA.fullText := by
  have h1 := (c5_summary_per_order envC5 2 orderB (by decide)).1 rfl
  have h2 := (c5_summary_per_order envA 2 orderA (by decide)).2.1 (by decide)
    ("S" ++ orderA.fullText) rfl
  exact ⟨h1, h2.1⟩

/-- C6 counterexample: a complete run over a listing with two orders
performs two summarization calls, not a single one; spending more fuel
leaves the run unchanged, so the pagination loop terminated on its own,
and the run is complete. -/
theorem c6_counterexample :
    summarizeCount (fetch_executive_orders envC6 2).log = 2 ∧
    fetch_executive_orders envC6 3 = fetch_executive_orders envC6 2 ∧
    (2 : Nat) ≠ 1 :=
  ⟨by decide, by decide, by decide⟩

/-- C6 amended: a run performs one summarization call per recorded order
with a nonempty fetched text, in a linear sequence of events, rather than
a single call per run. -/
theorem c6_one_call_per_order (env : Env) (fuel : Nat) :
    summarizeCount (fetch_executive_orders env fuel).log =
      nonEmptyCount (fetch_executive_orders env fuel).orders :=
  fetchPages_count env fuel 1 order_text_cache

/-- C7: no failed HTTP request is retried: a listing page whose fetch has
a non-200 status ends pagination with that single request and no repeat;
a detail fetch that raises or has a non-200 status returns the empty
result after its single request and leaves the cache unchanged, so a
later call for the same URL issues one fresh request. -/
theorem c7_no_retry (env : Env) (cache : Cache) (url : String)
    (hmiss : cacheLookup cache url = none) :
    (∀ (fuel page : Nat), (env.listing (page_url page)).1 ≠ 200 →
       fetchPages env (fuel + 1) page cache =
         ⟨[], cache, [Event.httpGet (page_url page)]⟩) ∧
    (env.detail url = DetailFetch.exn →
       fetch_order_text env cache url = ⟨"", cache, [Event.httpGet url]⟩ ∧
       (fetch_order_text env (fetch_order_text env cache url).cache url).log =
         [Event.httpGet url]) ∧
    (∀ (status : Nat) (page2 : DetailPage),
       env.detail url = DetailFetch.resp status page2 → status ≠ 200 →
       fetch_order_text env cache url = ⟨"", cache, [Event.httpGet url]⟩ ∧
       (fetch_order_text env (fetch_order_text env cache url).cache url).log =
         [Event.httpGet url]) := by
  refine ⟨?_, ?_, ?_⟩
  · intro fuel page hstatus
    simp only [fetchPages]
    rw [if_pos hstatus]
  · intro hexn
    have h1 : fetch_order_text env cache url = ⟨"", cache, [Event.httpGet url]⟩ := by
      unfold fetch_order_text
      rw [hmiss, hexn]
    refine ⟨h1, ?_⟩
    rw [h1, h1]
  · intro status page2 hresp hs
    have h1 : fetch_order_text env cache url = ⟨"", cache, [Event.httpGet url]⟩ := by
      unfold fetch_order_text
      rw [hmiss, hresp]
      simp [hs]
    refine ⟨h1, ?_⟩
    rw [h1, h1]

/-- C7 witness: the theorem applied at a non-200 listing page and a
raising detail URL. -/
theorem c7_witness :
    fetchPages envA 1 2 [] = ⟨[], [], [Event.httpGet (page_url 2)]⟩ ∧
    fetch_order_text envA [] "zz" = ⟨"", [], [Event.httpGet "zz"]⟩ := by
  have h := c7_no_retry envA [] "zz" rfl
  exact ⟨h.1 0 2 (by decide), (h.2.1 rfl).1⟩

/-- C8: fetch_order_text is total at its interface: a raised exception is
absorbed into the empty-string result, and in every case the returned
value is a string: the cached one, the empty string, or the text
extracted from a 200 response. -/
theorem c8_total (env : Env) (cache : Cache) (url : String) :
    (env.detail url = DetailFetch.exn → cacheLookup cache url = none →
       fetch_order_text env cache url = ⟨"", cache, [Event.httpGet url]⟩) ∧
    ((fetch_order_text env cache url).text = "" ∨
     cacheLookup cache url = some (fetch_order_text env cache url).text ∨
     ∃ page : DetailPage, env.detail url = DetailFetch.resp 200 page ∧
       (fetch_order_text env cache url).text = extractOrderText page) := by
  constructor
  · intro hexn hmiss
    unfold fetch_order_text
    rw [hmiss, hexn]
  · unfold fetch_order_text
    cases hc : cacheLookup cache url with
    | some t => exact Or.inr (Or.inl rfl)
    | none =>
      cases hd : env.detail url with
      | exn => exact Or.inl rfl
      | resp status page =>
        by_cases hs : status = 200
        · subst hs
          exact Or.inr (Or.inr ⟨page, rfl, by simp⟩)
        · simp [hs]

/-- C8 witness: the theorem applied at a URL whose fetch raises. -/
theorem c8_witness :
    fetch_order_text envA [] "zz" = ⟨"", [], [Event.httpGet "zz"]⟩ :=
  (c8_total envA [] "zz").1 rfl rfl

/-- C9: the selector list is the six fixed selectors in source order; the
scan stops at the first container whose text exceeds 200 characters and
returns that text, provided every earlier selector found nothing or only
text of at most 200 characters; when the final selector-derived text is
empty or shorter than 200 characters the whole-page text is returned
instead; hence every result is either the whole-page text or has length
at least 200. -/
theorem c9_selector_fallback (page : DetailPage)
    (pre post : List (String × List (String × String)))
    (tag : String) (attrs : List (String × String)) (t : String)
    (hsel : selectors = pre ++ (tag, attrs) :: post)
    (hfind : page.find tag attrs = some t)
    (hlong : 200 < t.length)
    (hpre : pre.all (fun s => match page.find s.1 s.2 with
             | none => true
             | some u => decide (u.length ≤ 200)) = true) :
    selectors = [("article", []), ("div", [("class", "page-content")]), ("main", []),
                 ("div", [("class", "content-wrapper")]), ("div", [("class", "page__content")]),
                 ("div", [("class", "entry-content")])] ∧
    extractOrderText page = t ∧
    (∀ q : DetailPage,
       selectText q selectors "" = "" ∨ (selectText q selectors "").length < 200 →
       extractOrderText q = q.fullText) ∧
    (∀ q : DetailPage,
       extractOrderText q = q.fullText ∨ 200 ≤ (extractOrderText q).length) := by
  refine ⟨rfl, ?_, ?_, ?_⟩
  · simp only [extractOrderText]
    rw [hsel, selectText_first_long page pre tag attrs post t "" hfind hlong hpre]
    have hne : ¬(t = "" ∨ t.length < 200) := by
      rintro (rfl | hlt)
      · simp at hlong
      · omega
    rw [if_neg hne]
  · intro q hq
    simp only [extractOrderText]
    rw [if_pos hq]
  · intro q
    simp only [extractOrderText]
    by_cases hq : selectText q selectors "" = "" ∨ (selectText q selectors "").length < 200
    · rw [if_pos hq]
      exact Or.inl rfl
    · rw [if_neg hq]
      right
      push_neg at hq
      omega

set_option maxRecDepth 4000 in
/-- C9 witness: on a page whose first selector finds a short container and
whose second finds a 201-character one, the extracted text is the long
one. -/
theorem c9_witness : extractOrderText pageB = longT :=
  (c9_selector_fallback pageB [("article", [])]
    [("main", []), ("div", [("class", "content-wrapper")]),
     ("div", [("class", "page__content")]), ("div", [("class", "entry-content")])]
    "div" [("class", "page-content")] longT rfl (by decide) (by decide) (by decide)).2.1

/-- C10: the rendered table exposes exactly the five columns Date, Title,
Link, Summary, Impact; the displayed row of an order ignores its Full Text
field, changing every Full Text field changes nothing in the rendered
table, and yet the Full Text is collected for every recorded order: its
impact label is computed from precisely that field. -/
theorem c10_displayed_columns (env : Env) (fuel : Nat) (o : Order) (g : Order → String)
    (ho : o ∈ (fetch_executive_orders env fuel).orders) :
    displayedColumns = ["Date", "Title", "Link", "Summary", "Impact"] ∧
    (∀ (x : Order) (txt : String), displayRow { x with fullText := txt } = displayRow x) ∧
    (∀ (orders : List Order) (d : Nat),
       renderTable (orders.map (fun x => { x with fullText := g x })) d =
         renderTable orders d) ∧
    o.impact = impactFor o.fullText :=
  ⟨rfl, fun _ _ => rfl, fun orders d => renderTable_map_fullText g orders d,
   (mem_fetchPages_spec env fuel 1 order_text_cache o ho).1⟩

/-- C10 witness: the theorem applied to the order produced by a concrete
run. -/
theorem c10_witness :
    displayedColumns = ["Date", "Title", "Link", "Summary", "Impact"] ∧
    orderA.impact = impactFor orderA.fullText := by
  have h := c10_displayed_columns envA 2 orderA (fun _ => "") (by decide)
  exact ⟨h.1, h.2.2.2⟩

end EASummarizer

